import Mathlib

/-!
Verification of the zipline backtesting core.

A shallow embedding, in Lean 4, of the parts of the zipline repository that
the specification's testable claims are about:

* `zipline/finance/trading.py` — `TransactionSimulator` (volume-share fill
  model, order time-to-live, transaction creation);
* `zipline/finance/performance.py` — `Position`, `PerformancePeriod`,
  `PerformanceTracker` capital tracking;
* `zipline/protocol.py` — wire frames for trades, transactions and orders,
  and the `PACK_DATE` / `UNPACK_DATE` helpers;
* `zipline/monitor.py` — the `Controller` heartbeat protocol;
* `zipline/components/feed.py` — the chronological merge (`Feed`).

Python `float` values are modelled as rationals (`ℚ`), Python `int` as `ℤ`,
and timestamps as integers counting seconds (`datetime.timedelta(seconds=30)`
becomes the integer `30`, one day becomes `86400`).  Fallible code is
modelled with `Option`.
-/

namespace Zipline

/-- Python's `int(x)` on a float truncates toward zero. -/
def intTrunc (q : ℚ) : ℤ := if 0 ≤ q then ⌊q⌋ else ⌈q⌉

/-- Python's `math.fabs`. -/
def fabs (q : ℚ) : ℚ := if q < 0 then -q else q

/-! ## Events and transactions (`zipline/finance/trading.py`) -/

/-- An order event as consumed by `TransactionSimulator.add_open_order`:
security id, signed share amount, creation timestamp. -/
structure OrderEvent where
  sid : ℤ
  amount : ℤ
  dt : ℤ
  deriving Repr, DecidableEq

/-- A trade event `(sid, price, volume, dt)`. -/
structure TradeEvent where
  sid : ℤ
  price : ℚ
  volume : ℤ
  dt : ℤ
  deriving Repr, DecidableEq

/-- A transaction as built by `TransactionSimulator.create_transaction`. -/
structure Transaction where
  sid : ℤ
  amount : ℤ
  dt : ℤ
  price : ℚ
  commission : ℚ
  deriving Repr, DecidableEq

/-- State of `TransactionSimulator` (`trading.py`, `__init__`):
`open_orders` maps a sid to its buffered orders (an association list),
plus the order/transaction counters.  `algo_time` is read by
`apply_trade_to_open_orders` for the TTL check; the code that assigns it is
not among the provided sources.  Modelled from the spec: the TTL is measured
"relative to the current trade", so `algo_time` holds the current
simulation time. -/
structure TransactionSimulator where
  open_orders : List (ℤ × List OrderEvent)
  order_count : ℕ
  txn_count : ℕ
  algo_time : ℤ
  deriving Repr, DecidableEq

/-- `self.trade_window = datetime.timedelta(seconds=30)` -/
def trade_window : ℤ := 30

/-- `self.orderTTL = datetime.timedelta(days=1)` -/
def orderTTL : ℤ := 86400

/-- `self.volume_share = 0.05` (stored but unused by the fill computation,
which uses the literal `.25`). -/
def volume_share_param : ℚ := 5 / 100

/-- `self.commission = 0.03` -/
def commission_rate : ℚ := 3 / 100

/-- Look up the buffered orders for a sid (`self.open_orders.has_key` /
`self.open_orders[event.sid]`). -/
def lookupOrders (oo : List (ℤ × List OrderEvent)) (sid : ℤ) :
    Option (List OrderEvent) :=
  (oo.find? (fun p => p.1 = sid)).map Prod.snd

/-- `self.open_orders[event.sid] = remaining_orders` (the key is present). -/
def setOrders (oo : List (ℤ × List OrderEvent)) (sid : ℤ)
    (orders : List OrderEvent) : List (ℤ × List OrderEvent) :=
  oo.map (fun p => if p.1 = sid then (p.1, orders) else p)

/-- `TransactionSimulator.add_open_order`: zero-amount orders are ignored;
otherwise the order is appended to the buffer for its sid. -/
def add_open_order (sim : TransactionSimulator) (event : OrderEvent) :
    TransactionSimulator :=
  if event.amount = 0 then sim
  else
    let sim := { sim with order_count := sim.order_count + 1 }
    match lookupOrders sim.open_orders event.sid with
    | some orders =>
        { sim with open_orders := setOrders sim.open_orders event.sid (orders ++ [event]) }
    | none =>
        { sim with open_orders := sim.open_orders ++ [(event.sid, [event])] }

/-- Accumulator of the order loop in `apply_trade_to_open_orders`:
the retained (still-live, out-of-window) orders, the aggregate open amount
`total_order`, and the running transaction timestamp `dt`. -/
structure FillAcc where
  remaining : List OrderEvent
  total : ℤ
  dt : ℤ
  deriving Repr, DecidableEq

/-- One iteration of the order loop in `apply_trade_to_open_orders`:
an order within 30 seconds of the trade is counted into `total_order`
(and may push `dt` forward); otherwise, if it still has time to live, it
is kept in `remaining_orders`; otherwise it is dropped. -/
def fillStep (algo_time event_dt : ℤ) (acc : FillAcc) (order : OrderEvent) :
    FillAcc :=
  if order.dt - event_dt < trade_window then
    { acc with
        total := acc.total + order.amount,
        dt := if order.dt > acc.dt then order.dt else acc.dt }
  else if algo_time - order.dt < orderTTL then
    { acc with remaining := acc.remaining ++ [order] }
  else acc

/-- `TransactionSimulator.create_transaction`: the transaction amount is the
`int()` truncation of the rational fill amount, while the commission is
computed from the untruncated amount. -/
def create_transaction (sim : TransactionSimulator) (sid : ℤ) (amount : ℚ)
    (price : ℚ) (dt : ℤ) (direction : ℚ) :
    TransactionSimulator × Transaction :=
  ({ sim with txn_count := sim.txn_count + 1 },
   { sid := sid
     amount := intTrunc amount
     dt := dt
     price := price
     commission := commission_rate * amount * direction })

/-- Modelled from the spec: `create_dummy_txn` is invoked by
`apply_trade_to_open_orders` on zero-volume trades but is not defined in the
provided sources.  The spec says "If `volume == 0` → emit no transaction",
so the call yields no transaction. -/
def create_dummy_txn (_dt : ℤ) : Option Transaction := none

/-- `TransactionSimulator.apply_trade_to_open_orders`. -/
def apply_trade_to_open_orders (sim : TransactionSimulator)
    (event : TradeEvent) : TransactionSimulator × Option Transaction :=
  if event.volume = 0 then
    (sim, create_dummy_txn event.dt)
  else
    match lookupOrders sim.open_orders event.sid with
    | none => (sim, none)
    | some orders =>
      let acc := orders.foldl (fillStep sim.algo_time event.dt)
        { remaining := [], total := 0, dt := event.dt }
      let sim := { sim with
        open_orders := setOrders sim.open_orders event.sid acc.remaining }
      let direction : ℚ :=
        if acc.total ≠ 0 then (acc.total : ℚ) / fabs (acc.total : ℚ) else 1
      let volume_share₀ : ℚ := direction * (acc.total : ℚ) / (event.volume : ℚ)
      let volume_share : ℚ := if volume_share₀ > 1/4 then 1/4 else volume_share₀
      let amount : ℚ := volume_share * (event.volume : ℚ) * direction
      let impact : ℚ := volume_share ^ 2 * (1/10) * direction * event.price
      let (sim, txn) := create_transaction sim event.sid amount
        (event.price + impact) acc.dt direction
      (sim, some txn)

/-- The accumulator produced by the order loop of
`apply_trade_to_open_orders` for a given trade and order list. -/
def tradeFillAcc (sim : TransactionSimulator) (event : TradeEvent)
    (orders : List OrderEvent) : FillAcc :=
  orders.foldl (fillStep sim.algo_time event.dt)
    { remaining := [], total := 0, dt := event.dt }

/-! ## Positions and performance periods (`zipline/finance/performance.py`) -/

/-- A `Position` (`performance.py`).  `last_sale_price` / `last_sale_date`
start out as `None`; they are set by `update_last_sale` on trade events. -/
structure Position where
  sid : ℤ
  amount : ℤ
  cost_basis : ℚ
  last_sale_price : Option ℚ
  last_sale_date : Option ℤ
  deriving Repr, DecidableEq

/-- `Position.__init__(sid)`. -/
def Position.create (sid : ℤ) : Position :=
  { sid := sid, amount := 0, cost_basis := 0,
    last_sale_price := none, last_sale_date := none }

/-- `Position.update`.  The code raises `NameError` on a sid mismatch
(modelled as `none`); closing to zero resets the cost basis; otherwise the
cost basis becomes the amount-weighted average. -/
def Position.update (p : Position) (txn : Transaction) : Option Position :=
  if p.sid ≠ txn.sid then none
  else if p.amount + txn.amount = 0 then
    some { p with cost_basis := 0, amount := 0 }
  else
    let prev_cost := p.cost_basis * (p.amount : ℚ)
    let txn_cost := (txn.amount : ℚ) * txn.price
    let total_cost := prev_cost + txn_cost
    let total_shares := (p.amount : ℚ) + (txn.amount : ℚ)
    some { p with
      cost_basis := total_cost / total_shares,
      amount := p.amount + txn.amount }

/-- `Position.currentValue`: `amount * last_sale_price`.  Fails (Python
`TypeError`) while `last_sale_price` is unset. -/
def Position.currentValue (p : Position) : Option ℚ :=
  p.last_sale_price.map (fun px => (p.amount : ℚ) * px)

/-- A `PerformancePeriod` (`performance.py`).  The `positions` dict
(sid → `Position`) is modelled as a list of positions with distinct sids.
`returns` is first assigned inside `calculate_performance`; it is seeded
with `0` here. -/
structure PerformancePeriod where
  ending_value : ℚ
  period_capital_used : ℚ
  pnl : ℚ
  positions : List Position
  starting_value : ℚ
  starting_cash : ℚ
  ending_cash : ℚ
  returns : ℚ
  deriving Repr, DecidableEq

/-- `PerformancePeriod.__init__(initial_positions, starting_value,
starting_cash)`. -/
def PerformancePeriod.create (initial_positions : List Position)
    (starting_value starting_cash : ℚ) : PerformancePeriod :=
  { ending_value := 0, period_capital_used := 0, pnl := 0,
    positions := initial_positions, starting_value := starting_value,
    starting_cash := starting_cash, ending_cash := starting_cash,
    returns := 0 }

/-- `PerformancePeriod.calculate_positions_value`: sum of the positions'
current values; fails if any position has no last sale price yet. -/
def calculate_positions_value (ps : List Position) : Option ℚ :=
  ps.foldl (fun acc p => acc.bind (fun a => p.currentValue.map (a + ·)))
    (some 0)

/-- `PerformancePeriod.calculate_performance`. -/
def PerformancePeriod.calculate_performance (pp : PerformancePeriod) :
    Option PerformancePeriod :=
  (calculate_positions_value pp.positions).map (fun mv =>
    let total_at_start := pp.starting_cash + pp.starting_value
    let ending_cash := pp.starting_cash + pp.period_capital_used
    let total_at_end := ending_cash + mv
    let pnl := total_at_end - total_at_start
    { pp with
        ending_value := mv
        ending_cash := ending_cash
        pnl := pnl
        returns := if total_at_start ≠ 0 then pnl / total_at_start else 0 })

/-- `PerformancePeriod.execute_transaction`: create the position on first
touch, update it, and accumulate `-price·amount` into the capital used.
`Position.update` cannot fail here because the position acted on has the
transaction's sid. -/
def PerformancePeriod.execute_transaction (pp : PerformancePeriod)
    (txn : Transaction) : PerformancePeriod :=
  let ps :=
    if pp.positions.any (fun p => p.sid = txn.sid) then pp.positions
    else pp.positions ++ [Position.create txn.sid]
  let ps := ps.map (fun p =>
    if p.sid = txn.sid then (p.update txn).getD p else p)
  { pp with
      positions := ps
      period_capital_used :=
        pp.period_capital_used + (-1) * txn.price * txn.amount }

/-! ## Capital tracking in `PerformanceTracker.process_event`
(`zipline/finance/performance.py`) -/

/-- Python's `round()` (banker's rounding: ties go to the even integer). -/
def pyRound (q : ℚ) : ℤ :=
  let f := ⌊q⌋
  let r := q - (f : ℚ)
  if r < 1/2 then f
  else if 1/2 < r then f + 1
  else if 2 ∣ f then f else f + 1

/-- `PerformanceTracker.round_to_nearest(x, base) = int(base * round(x/base))`. -/
def round_to_nearest (x : ℚ) (base : ℚ) : ℤ :=
  intTrunc (base * (pyRound (x / base) : ℚ))

/-- The capital-tracking fields of `PerformanceTracker` touched by
`process_event`. -/
structure CapitalState where
  cumulative_capital_used : ℚ
  max_capital_used : ℚ
  deriving Repr, DecidableEq

/-- `PerformanceTracker.__init__`: both counters start at `0.0`. -/
def CapitalState.initial : CapitalState :=
  { cumulative_capital_used := 0, max_capital_used := 0 }

/-- The transaction branch of `PerformanceTracker.process_event`:
accumulate the transaction cost, lift `max_capital_used` to the absolute
cumulative capital used if that is larger, add a 10% cushion and round to
the nearest 5000. -/
def updateCapital (s : CapitalState) (transaction_cost : ℚ) : CapitalState :=
  let ccu := s.cumulative_capital_used + transaction_cost
  let mcu :=
    if |ccu| > s.max_capital_used then |ccu| else s.max_capital_used
  let cushioned_capital := 11/10 * mcu
  { cumulative_capital_used := ccu,
    max_capital_used := (round_to_nearest cushioned_capital 5000 : ℚ) }

/-- `PerformanceTracker.process_event`, restricted to the capital-tracking
fields: events without a transaction leave them unchanged. -/
def processEventCapital (s : CapitalState) (txn : Option Transaction) :
    CapitalState :=
  match txn with
  | none => s
  | some t => updateCapital s (t.price * (t.amount : ℚ))

/-! ## Wire protocol (`zipline/protocol.py`)

msgpack serialization of a tuple of scalars is faithful and is modelled as
the identity on tuples; the content of each frame is the tuple the code
passes to `msgpack.dumps`. -/

/-- A UTC `datetime.datetime` to microsecond precision
(`tzinfo == pytz.utc` always, so the timezone is implicit). -/
structure UTCDateTime where
  year : ℕ
  month : ℕ
  day : ℕ
  hour : ℕ
  minute : ℕ
  second : ℕ
  microsecond : ℕ
  deriving Repr, DecidableEq

/-- Gregorian leap year, as used by `datetime`. -/
def isLeap (y : ℕ) : Bool := (y % 4 = 0 && y % 100 ≠ 0) || y % 400 = 0

/-- Days in a month, as validated by the `datetime` constructor. -/
def daysInMonth (y m : ℕ) : ℕ :=
  if m = 2 then (if isLeap y then 29 else 28)
  else if m = 4 ∨ m = 6 ∨ m = 9 ∨ m = 11 then 30
  else 31

/-- The field ranges `datetime.datetime(...)` (and `.replace(microsecond=…)`)
accepts; out-of-range fields raise `ValueError`. -/
def UTCDateTime.valid (d : UTCDateTime) : Bool :=
  1 ≤ d.year && d.year ≤ 9999 &&
  1 ≤ d.month && d.month ≤ 12 &&
  1 ≤ d.day && d.day ≤ daysInMonth d.year d.month &&
  d.hour < 24 && d.minute < 60 && d.second < 60 &&
  d.microsecond < 1000000

/-- The 7-integer tuple `PACK_DATE` stores in place of the datetime. -/
structure PackedDate where
  year : ℕ
  month : ℕ
  day : ℕ
  hour : ℕ
  minute : ℕ
  second : ℕ
  micros : ℕ
  deriving Repr, DecidableEq

/-- `PACK_DATE`: `event.dt.timetuple()[0:6]` plus the microseconds. -/
def PACK_DATE (dt : UTCDateTime) : PackedDate :=
  { year := dt.year, month := dt.month, day := dt.day, hour := dt.hour,
    minute := dt.minute, second := dt.second, micros := dt.microsecond }

/-- `UNPACK_DATE`: rebuild
`datetime(year, month, day, hour, minute, second).replace(microsecond, utc)`;
the constructor rejects out-of-range fields (`ValueError`). -/
def UNPACK_DATE (t : PackedDate) : Option UTCDateTime :=
  let dt : UTCDateTime :=
    { year := t.year, month := t.month, day := t.day, hour := t.hour,
      minute := t.minute, second := t.second, microsecond := t.micros }
  if dt.valid then some dt else none

/-- `DATASOURCE_TYPE = Enum('ORDER', 'TRADE', 'EMPTY')`. -/
def DATASOURCE_TYPE_ORDER : ℕ := 0
def DATASOURCE_TYPE_TRADE : ℕ := 1
def DATASOURCE_TYPE_EMPTY : ℕ := 2

/-- A trade event as framed by `TRADE_FRAME`; `type` is the datasource
type tag asserted to be `DATASOURCE_TYPE.TRADE`. -/
structure TradeMsg where
  sid : ℤ
  price : ℚ
  volume : ℤ
  dt : UTCDateTime
  type : ℕ
  deriving Repr, DecidableEq

/-- The tuple `TRADE_FRAME` serializes. -/
structure TradeWire where
  sid : ℤ
  price : ℚ
  volume : ℤ
  dt : PackedDate
  type : ℕ
  deriving Repr, DecidableEq

/-- `TRADE_FRAME`: asserts the event type, packs the date, serializes
`(sid, price, volume, dt, type)`. -/
def TRADE_FRAME (e : TradeMsg) : Option TradeWire :=
  if e.type = DATASOURCE_TYPE_TRADE then
    some { sid := e.sid, price := e.price, volume := e.volume,
           dt := PACK_DATE e.dt, type := e.type }
  else none

/-- `TRADE_UNFRAME`: deserialize the tuple and unpack the date. -/
def TRADE_UNFRAME (w : TradeWire) : Option TradeMsg :=
  (UNPACK_DATE w.dt).map (fun dt =>
    { sid := w.sid, price := w.price, volume := w.volume,
      dt := dt, type := w.type })

/-- A transaction event as framed by `TRANSACTION_FRAME`. -/
structure TransactionMsg where
  sid : ℤ
  price : ℚ
  amount : ℤ
  commission : ℚ
  dt : UTCDateTime
  deriving Repr, DecidableEq

/-- The tuple `TRANSACTION_FRAME` serializes:
`(sid, price, amount, commission, dt)`. -/
structure TransactionWire where
  sid : ℤ
  price : ℚ
  amount : ℤ
  commission : ℚ
  dt : PackedDate
  deriving Repr, DecidableEq

/-- `TRANSACTION_FRAME`. -/
def TRANSACTION_FRAME (e : TransactionMsg) : TransactionWire :=
  { sid := e.sid, price := e.price, amount := e.amount,
    commission := e.commission, dt := PACK_DATE e.dt }

/-- `TRANSACTION_UNFRAME`. -/
def TRANSACTION_UNFRAME (w : TransactionWire) : Option TransactionMsg :=
  (UNPACK_DATE w.dt).map (fun dt =>
    { sid := w.sid, price := w.price, amount := w.amount,
      commission := w.commission, dt := dt })

/-- An order event as framed by `ORDER_SOURCE_FRAME` (order source → feed). -/
structure OrderSourceMsg where
  sid : ℤ
  amount : ℤ
  dt : UTCDateTime
  source_id : String
  type : ℕ
  deriving Repr, DecidableEq

/-- The tuple `ORDER_SOURCE_FRAME` serializes:
`(sid, amount, dt, source_id, type)`. -/
structure OrderSourceWire where
  sid : ℤ
  amount : ℤ
  dt : PackedDate
  source_id : String
  type : ℕ
  deriving Repr, DecidableEq

/-- `ORDER_SOURCE_FRAME`: asserts the event type is
`DATASOURCE_TYPE.ORDER`, packs the date, serializes the tuple. -/
def ORDER_SOURCE_FRAME (e : OrderSourceMsg) : Option OrderSourceWire :=
  if e.type = DATASOURCE_TYPE_ORDER then
    some { sid := e.sid, amount := e.amount, dt := PACK_DATE e.dt,
           source_id := e.source_id, type := e.type }
  else none

/-- `ORDER_SOURCE_UNFRAME`. -/
def ORDER_SOURCE_UNFRAME (w : OrderSourceWire) : Option OrderSourceMsg :=
  (UNPACK_DATE w.dt).map (fun dt =>
    { sid := w.sid, amount := w.amount, dt := dt,
      source_id := w.source_id, type := w.type })

/-- A sample UTC datetime used as a concrete round-trip input. -/
def sampleDT : UTCDateTime :=
  { year := 2012, month := 3, day := 14, hour := 15, minute := 9,
    second := 26, microsecond := 535897 }

/-- A sample UTC datetime on a leap day at the edge of every field range. -/
def sampleDT2 : UTCDateTime :=
  { year := 2012, month := 2, day := 29, hour := 23, minute := 59,
    second := 59, microsecond := 999999 }

/-- A sample trade message. -/
def sampleTradeMsg : TradeMsg :=
  { sid := 42, price := 101/10, volume := 500, dt := sampleDT,
    type := DATASOURCE_TYPE_TRADE }

/-- A sample transaction message. -/
def sampleTxnMsg : TransactionMsg :=
  { sid := 42, price := 101/10, amount := -25, commission := 3/4,
    dt := sampleDT }

/-- A sample order-source message. -/
def sampleOrderMsg : OrderSourceMsg :=
  { sid := 7, amount := 100, dt := sampleDT2, source_id := "ORDER_SOURCE",
    type := DATASOURCE_TYPE_ORDER }

/-! ## Controller heartbeat (`zipline/monitor.py`) -/

/-- The `Controller` fields driving `beat` / `new` / `fail`: the set of
tracked component identities, the declared topology, and whether unknown
identities are admitted (`freeform`).  Identities are numbered. -/
structure ControllerState where
  tracked : Finset ℕ
  topology : Finset ℕ
  freeform : Bool
  deriving DecidableEq

/-- `Controller.beat`, given the set of identities that responded to the
current heartbeat: `good = tracked ∩ responses`, `bad = tracked − good`,
`new = responses − good`; each new component is admitted if it is in the
topology or the topology is freeform (otherwise `UnknownChatter` is raised,
modelled as `none`), and each bad component is removed (`fail`). -/
def Controller.beat (s : ControllerState) (responses : Finset ℕ) :
    Option ControllerState :=
  let good := s.tracked ∩ responses
  let bad := s.tracked \ good
  let nw := responses \ good
  if s.freeform = true ∨ nw ⊆ s.topology then
    some { s with tracked := (s.tracked ∪ nw) \ bad }
  else none

/-! ## Feed — chronological merge (`zipline/components/feed.py`)

Sources are numbered `0, 1, …`; `FeedState.buffers` holds one buffer per
registered source, in the iteration order of the `data_buffer` dict. -/

/-- An event as buffered by the feed: its source and its timestamp.
Filler ("dummy") events carry no `dt`. -/
structure FeedEvent where
  source_id : ℕ
  dt : Option ℤ
  deriving Repr, DecidableEq

/-- One per-source queue of `Feed.data_buffer`, together with whether that
source has signaled DONE. -/
structure SourceBuf where
  queue : List FeedEvent
  done : Bool
  deriving Repr, DecidableEq

/-- The feed state: per-source buffers, the `draining` flag, and the
sent/received counters. -/
structure FeedState where
  buffers : List SourceBuf
  draining : Bool
  sent_count : ℕ
  received_count : ℕ
  deriving Repr, DecidableEq

/-- Modelled from the spec: `is_full` is inherited from the `Aggregate`
base class (`zipline/components/aggregator.py`), which is not among the
provided sources.  Per the spec, the feed may emit iff every registered
source either has at least one buffered event or has signaled DONE. -/
def isFull (s : FeedState) : Bool :=
  s.buffers.all (fun b => !b.queue.isEmpty || b.done)

/-- The loop body of `Feed.next`: walk the per-source queues in order;
skip empty queues; pop (and otherwise ignore, for this scan) a filler at
the head of a queue; among the remaining heads keep the one with the
smallest `dt`, later sources winning ties (`<=`).  Returns the mutated
buffers and the selected `(dt, source index)`. -/
def feedScan : List SourceBuf → ℕ → Option (ℤ × ℕ) →
    List SourceBuf × Option (ℤ × ℕ)
  | [], _, acc => ([], acc)
  | b :: rest, i, acc =>
    match b.queue with
    | [] =>
      let r := feedScan rest (i + 1) acc
      (b :: r.1, r.2)
    | e :: tl =>
      match e.dt with
      | none =>
        -- this is a filler event, discard
        let r := feedScan rest (i + 1) acc
        ({ b with queue := tl } :: r.1, r.2)
      | some d =>
        let acc' :=
          match acc with
          | none => some (d, i)
          | some (d₀, j) => if d ≤ d₀ then some (d, i) else some (d₀, j)
        let r := feedScan rest (i + 1) acc'
        (b :: r.1, r.2)

/-- `Feed.next`: guarded by the fullness predicate (or drain mode), scan
the buffers and pop the selected earliest event. -/
def Feed.next (s : FeedState) : FeedState × Option FeedEvent :=
  if isFull s || s.draining then
    let r := feedScan s.buffers 0 none
    match r.2 with
    | none => ({ s with buffers := r.1 }, none)
    | some (_, j) =>
      match r.1.get? j with
      | some b =>
        match b.queue with
        | e :: tl =>
          ({ s with buffers := r.1.set j { b with queue := tl } }, some e)
        | [] => ({ s with buffers := r.1 }, none)
      | none => ({ s with buffers := r.1 }, none)
  else (s, none)

/-- `Feed.send_next`: emit the chronologically next event (if any) and
count it. -/
def Feed.send_next (s : FeedState) : FeedState × Option FeedEvent :=
  if isFull s || s.draining then
    let r := Feed.next s
    match r.2 with
    | some ev => ({ r.1 with sent_count := r.1.sent_count + 1 }, some ev)
    | none => (r.1, none)
  else (s, none)

/-- `Feed.append`: enqueue an event on its source's buffer and count it. -/
def Feed.append (s : FeedState) (e : FeedEvent) : FeedState :=
  match s.buffers.get? e.source_id with
  | some b =>
    { s with
        buffers := s.buffers.set e.source_id { b with queue := b.queue ++ [e] },
        received_count := s.received_count + 1 }
  | none => s

/-- Modelled from the spec: DONE bookkeeping lives on the missing
`Aggregate` base class; a source that signals DONE is marked done. -/
def Feed.markDone (s : FeedState) (i : ℕ) : FeedState :=
  match s.buffers.get? i with
  | some b => { s with buffers := s.buffers.set i { b with done := true } }
  | none => s

/-- The operations a run of the feed interleaves: receiving an event from
a source, a source signaling DONE, entering drain mode, and an emit
attempt (`send_next`). -/
inductive FeedCmd where
  | append (e : FeedEvent)
  | markDone (i : ℕ)
  | startDrain
  | emit
  deriving Repr, DecidableEq

/-- One step of a feed run; only `emit` can produce an output event. -/
def feedStep (s : FeedState) : FeedCmd → FeedState × Option FeedEvent
  | .append e => (Feed.append s e, none)
  | .markDone i => (Feed.markDone s i, none)
  | .startDrain => ({ s with draining := true }, none)
  | .emit => Feed.send_next s

/-- Run a sequence of feed operations, collecting the emitted events in
order. -/
def runFeed : FeedState → List FeedCmd → FeedState × List FeedEvent
  | s, [] => (s, [])
  | s, c :: cs =>
    let r := feedStep s c
    let rest := runFeed r.1 cs
    (rest.1, match r.2 with | some ev => ev :: rest.2 | none => rest.2)

/-- The timestamps of the (non-filler) events of a queue, in order. -/
def queueDts (q : List FeedEvent) : List ℤ := q.filterMap (·.dt)

/-- Boolean check that a list of timestamps is non-decreasing. -/
def ascIntsB : List ℤ → Bool
  | [] => true
  | [_] => true
  | a :: b :: t => decide (a ≤ b) && ascIntsB (b :: t)

/-- The per-source "last buffered timestamp" ghost data used to phrase
run legality: for each source, the `dt` of the last event of its queue
(`none` when the queue is empty). -/
def lastsOf (s : FeedState) : List (Option ℤ) :=
  s.buffers.map (fun b =>
    match b.queue.getLast? with
    | some e => e.dt
    | none => none)

/-- The per-source done flags. -/
def donesOf (s : FeedState) : List Bool := s.buffers.map (·.done)

/-- Legality of a feed run, relative to the ghost per-source last
timestamps and done flags: every received event carries a timestamp
(no fillers) at least the source's previous one and comes from a
registered, not-yet-done source; drain mode starts only after every
source is done. -/
def legalFrom : List (Option ℤ) → List Bool → List FeedCmd → Bool
  | _, _, [] => true
  | lasts, dones, c :: cs =>
    match c with
    | .append e =>
      match e.dt, lasts.get? e.source_id, dones.get? e.source_id with
      | some d, some last, some false =>
        (match last with
         | none => true
         | some d₀ => decide (d₀ ≤ d)) &&
        legalFrom (lasts.set e.source_id (some d)) dones cs
      | _, _, _ => false
    | .markDone i =>
      (dones.get? i).isSome && legalFrom lasts (dones.set i true) cs
    | .startDrain => dones.all (· = true) && legalFrom lasts dones cs
    | .emit => legalFrom lasts dones cs

/-- Well-formedness of a feed state for the amended ordering claim: every
buffered event carries a timestamp (no fillers), every queue is
non-decreasing in `dt`, and drain mode implies every source is done. -/
def feedWF (s : FeedState) : Bool :=
  s.buffers.all (fun b =>
    b.queue.all (fun e => e.dt.isSome) && ascIntsB (queueDts b.queue)) &&
  (!s.draining || s.buffers.all (·.done))

/-- `m` is a lower bound (when present) for `d`. -/
def dtLeAll (m : Option ℤ) (d : ℤ) : Prop := ∀ x, m = some x → x ≤ d

def FeedInv (s : FeedState) (lasts : List (Option ℤ)) (m : Option ℤ) : Prop :=
  lasts.length = s.buffers.length ∧
  (s.draining = true → ∀ b ∈ s.buffers, b.done = true) ∧
  (∀ i b, s.buffers.get? i = some b →
    (∀ e ∈ b.queue, e.dt.isSome = true) ∧
    (queueDts b.queue).Chain' (· ≤ ·) ∧
    (∀ d ∈ queueDts b.queue, dtLeAll m d) ∧
    (∀ e, b.queue.getLast? = some e → lasts.get? i = some e.dt) ∧
    (b.queue = [] → b.done = false →
      (lasts.get? i = some none → m = none) ∧
      (∀ d, lasts.get? i = some (some d) → dtLeAll m d)))

/-! ## Basic lemmas -/

theorem intTrunc_intCast (n : ℤ) : intTrunc (n : ℚ) = n := by
  unfold intTrunc
  split <;> simp

theorem intTrunc_nonneg (q : ℚ) (h : 0 ≤ q) : intTrunc q = ⌊q⌋ := by
  unfold intTrunc
  simp [h]

theorem intTrunc_neg_of_nonneg (q : ℚ) (h : 0 ≤ q) :
    intTrunc (-q) = -⌊q⌋ := by
  rcases eq_or_lt_of_le h with h0 | h0
  · simp [intTrunc, ← h0]
  · unfold intTrunc
    rw [if_neg (by simpa using not_le.mpr h0), Int.ceil_neg]

/-! ## C4 — Position.update -/

/-- C4: for a position and a transaction on the same sid, `Position.update`
closes to zero with a reset cost basis when the amounts cancel, and
otherwise sets the amount to the sum and the cost basis to the
amount-weighted average price. -/
theorem position_update_spec (p : Position) (txn : Transaction)
    (h : p.sid = txn.sid) :
    (p.amount + txn.amount = 0 →
      p.update txn = some { p with cost_basis := 0, amount := 0 }) ∧
    (p.amount + txn.amount ≠ 0 →
      ∃ p', p.update txn = some p' ∧
        p'.amount = p.amount + txn.amount ∧
        p'.cost_basis =
          (p.cost_basis * (p.amount : ℚ) + txn.price * (txn.amount : ℚ)) /
            ((p.amount : ℚ) + (txn.amount : ℚ))) := by
  constructor
  · intro h0
    unfold Position.update
    rw [if_neg (fun hn => hn h), if_pos h0]
  · intro h0
    unfold Position.update
    rw [if_neg (fun hn => hn h), if_neg h0]
    exact ⟨_, rfl, rfl, by ring_nf⟩

/-- Witness for C4 at a concrete position and transaction. -/
theorem position_update_spec_witness :
    ∃ p', Position.update
        { sid := 1, amount := 3, cost_basis := 2,
          last_sale_price := none, last_sale_date := none }
        { sid := 1, amount := 2, dt := 0, price := 4, commission := 0 } =
        some p' ∧
      p'.amount = 5 ∧ p'.cost_basis = (2 * 3 + 4 * 2) / 5 := by
  obtain ⟨p', h1, h2, h3⟩ :=
    (position_update_spec
      { sid := 1, amount := 3, cost_basis := 2,
        last_sale_price := none, last_sale_date := none }
      { sid := 1, amount := 2, dt := 0, price := 4, commission := 0 }
      rfl).2 (by decide)
  exact ⟨p', h1, by simpa using h2, by rw [h3]; norm_num⟩

/-! ## C6 — zero-volume trades -/

/-- C6: a zero-volume trade produces no transaction and leaves the
simulator state (in particular the open orders) unchanged. -/
theorem zero_volume_no_transaction (sim : TransactionSimulator)
    (event : TradeEvent) (h : event.volume = 0) :
    apply_trade_to_open_orders sim event = (sim, none) := by
  unfold apply_trade_to_open_orders
  rw [if_pos h]
  rfl

/-- Witness for C6 at a concrete simulator state and trade. -/
theorem zero_volume_no_transaction_witness :
    apply_trade_to_open_orders
      { open_orders := [(7, [{ sid := 7, amount := 10, dt := 0 }])],
        order_count := 1, txn_count := 0, algo_time := 5 }
      { sid := 7, price := 3, volume := 0, dt := 5 } =
    ({ open_orders := [(7, [{ sid := 7, amount := 10, dt := 0 }])],
       order_count := 1, txn_count := 0, algo_time := 5 }, none) :=
  zero_volume_no_transaction _ _ rfl

/-! ## C3 — PerformancePeriod accounting -/

theorem execute_transaction_starting_cash (pp : PerformancePeriod)
    (t : Transaction) :
    (pp.execute_transaction t).starting_cash = pp.starting_cash := rfl

theorem execute_transaction_pcu (pp : PerformancePeriod) (t : Transaction) :
    (pp.execute_transaction t).period_capital_used =
      pp.period_capital_used + (-1) * t.price * (t.amount : ℚ) := rfl

theorem foldl_execute_starting_cash (txns : List Transaction) :
    ∀ pp : PerformancePeriod,
      (txns.foldl PerformancePeriod.execute_transaction pp).starting_cash =
        pp.starting_cash := by
  induction txns with
  | nil => intro pp; rfl
  | cons t ts ih =>
      intro pp
      simpa [List.foldl_cons, execute_transaction_starting_cash] using
        ih (pp.execute_transaction t)

theorem foldl_execute_pcu (txns : List Transaction) :
    ∀ pp : PerformancePeriod,
      (txns.foldl PerformancePeriod.execute_transaction pp).period_capital_used =
        pp.period_capital_used -
          (txns.map (fun t => t.price * (t.amount : ℚ))).sum := by
  induction txns with
  | nil => intro pp; simp
  | cons t ts ih =>
      intro pp
      rw [List.foldl_cons, ih (pp.execute_transaction t),
        execute_transaction_pcu]
      simp
      ring

/-- C3: after `calculate_performance`, the ending cash is the starting cash
plus the capital used, the pnl is the difference of total values, and the
returns are pnl over starting total (0 when that is 0); consequently a
period that starts with no capital used and executes transactions `T` ends
with cash `starting_cash − Σ(T.price · T.amount)`. -/
theorem calculate_performance_invariants :
    (∀ pp pp' : PerformancePeriod,
      pp.calculate_performance = some pp' →
      pp'.ending_cash = pp.starting_cash + pp.period_capital_used ∧
      pp'.pnl = (pp'.ending_cash + pp'.ending_value) -
        (pp.starting_cash + pp.starting_value) ∧
      (pp.starting_cash + pp.starting_value ≠ 0 →
        pp'.returns = pp'.pnl / (pp.starting_cash + pp.starting_value)) ∧
      (pp.starting_cash + pp.starting_value = 0 → pp'.returns = 0)) ∧
    (∀ (pp : PerformancePeriod) (txns : List Transaction)
      (pp' : PerformancePeriod),
      pp.period_capital_used = 0 →
      (txns.foldl PerformancePeriod.execute_transaction
        pp).calculate_performance = some pp' →
      pp'.ending_cash = pp.starting_cash -
        (txns.map (fun t => t.price * (t.amount : ℚ))).sum) := by
  have base : ∀ pp pp' : PerformancePeriod,
      pp.calculate_performance = some pp' →
      pp'.ending_cash = pp.starting_cash + pp.period_capital_used ∧
      pp'.pnl = (pp'.ending_cash + pp'.ending_value) -
        (pp.starting_cash + pp.starting_value) ∧
      (pp.starting_cash + pp.starting_value ≠ 0 →
        pp'.returns = pp'.pnl / (pp.starting_cash + pp.starting_value)) ∧
      (pp.starting_cash + pp.starting_value = 0 → pp'.returns = 0) := by
    intro pp pp' h
    unfold PerformancePeriod.calculate_performance at h
    rcases Option.map_eq_some'.mp h with ⟨mv, hmv, hpp⟩
    subst hpp
    refine ⟨rfl, by simp, ?_, ?_⟩
    · intro hne
      simp [hne]
    · intro he
      simp [he]
  refine ⟨base, ?_⟩
  intro pp txns pp' hpcu h
  have h1 := (base _ _ h).1
  rw [foldl_execute_starting_cash, foldl_execute_pcu, hpcu] at h1
  simpa [sub_eq_add_neg] using h1

/-- Witness for C3: a concrete period with one position and one executed
transaction. -/
theorem calculate_performance_invariants_witness :
    ∃ pp' : PerformancePeriod,
      (List.foldl PerformancePeriod.execute_transaction
        (PerformancePeriod.create
          [{ sid := 1, amount := 10, cost_basis := 5,
             last_sale_price := some 20, last_sale_date := some 0 }]
          0 100)
        [{ sid := 1, amount := 5, dt := 0, price := 4,
           commission := 0 }]).calculate_performance = some pp' ∧
      pp'.ending_cash = 100 - (4 * 5 : ℚ) := by
  obtain ⟨pp', hpp'⟩ : ∃ pp',
      (List.foldl PerformancePeriod.execute_transaction
        (PerformancePeriod.create
          [{ sid := 1, amount := 10, cost_basis := 5,
             last_sale_price := some 20, last_sale_date := some 0 }]
          0 100)
        [{ sid := 1, amount := 5, dt := 0, price := 4,
           commission := 0 }]).calculate_performance = some pp' := by
    exact ⟨_, rfl⟩
  have := calculate_performance_invariants.2
    (PerformancePeriod.create
      [{ sid := 1, amount := 10, cost_basis := 5,
         last_sale_price := some 20, last_sale_date := some 0 }]
      0 100)
    [{ sid := 1, amount := 5, dt := 0, price := 4, commission := 0 }]
    pp' rfl hpp'
  refine ⟨pp', hpp', ?_⟩
  rw [this]
  norm_num [PerformancePeriod.create]

/-! ## Lemmas about the volume-share fill model -/

theorem fabs_eq_abs (q : ℚ) : fabs q = |q| := by
  unfold fabs
  split_ifs with h
  · rw [abs_of_neg h]
  · rw [abs_of_nonneg (not_lt.mp h)]

theorem sign_div_abs (t : ℤ) (ht : t ≠ 0) :
    (t : ℚ) / |(t : ℚ)| = ((if 0 < t then 1 else -1 : ℤ) : ℚ) := by
  rcases lt_or_gt_of_ne ht with h | h
  · rw [if_neg (by omega)]
    have hq : (t : ℚ) < 0 := by exact_mod_cast h
    rw [abs_of_neg hq, div_neg, div_self (ne_of_lt hq)]
    norm_num
  · rw [if_pos h]
    have hq : (0 : ℚ) < (t : ℚ) := by exact_mod_cast h
    rw [abs_of_pos hq, div_self (ne_of_gt hq)]
    norm_num

theorem foldl_fillStep_total_dt (ta ed : ℤ) :
    ∀ (l : List OrderEvent) (a b : FillAcc),
      a.total = b.total → a.dt = b.dt →
      ((l.foldl (fillStep ta ed) a).total = (l.foldl (fillStep ta ed) b).total ∧
       (l.foldl (fillStep ta ed) a).dt = (l.foldl (fillStep ta ed) b).dt) := by
  intro l
  induction l with
  | nil => intro a b h1 h2; exact ⟨h1, h2⟩
  | cons o rest ih =>
      intro a b h1 h2
      rw [List.foldl_cons, List.foldl_cons]
      apply ih
      · unfold fillStep
        simp only [h1, h2]
        split_ifs <;> first | rfl | exact h1
      · unfold fillStep
        simp only [h1, h2]
        split_ifs <;> first | rfl | exact h2

theorem fillStep_skip (ta ed : ℤ) (a : FillAcc) (o : OrderEvent)
    (hwin : trade_window ≤ o.dt - ed) :
    (fillStep ta ed a o).total = a.total ∧ (fillStep ta ed a o).dt = a.dt := by
  unfold fillStep
  rw [if_neg (by omega)]
  split_ifs <;> simp

theorem lookupOrders_setOrders (sid : ℤ) (l : List OrderEvent) :
    ∀ oo : List (ℤ × List OrderEvent), (lookupOrders oo sid).isSome →
      lookupOrders (setOrders oo sid l) sid = some l := by
  intro oo
  induction oo with
  | nil => intro h; simp [lookupOrders] at h
  | cons p rest ih =>
      intro h
      by_cases hp : p.1 = sid
      · simp [lookupOrders, setOrders, List.find?, hp]
      · unfold lookupOrders setOrders at *
        simp only [List.map_cons, List.find?, if_neg hp] at *
        rw [decide_eq_false hp] at h ⊢
        exact ih h

theorem foldl_fillStep_dt (ta ed : ℤ) :
    ∀ (l : List OrderEvent) (a : FillAcc),
      (l.foldl (fillStep ta ed) a).dt =
        (l.filter (fun o => decide (o.dt - ed < trade_window))).foldl
          (fun dacc o => max dacc o.dt) a.dt := by
  intro l
  induction l with
  | nil => intro a; rfl
  | cons o rest ih =>
      intro a
      by_cases hw : o.dt - ed < trade_window
      · rw [List.foldl_cons, List.filter_cons_of_pos (by simpa using hw),
          List.foldl_cons, ih]
        have hstep : (fillStep ta ed a o).dt = max a.dt o.dt := by
          unfold fillStep
          rw [if_pos hw]
          dsimp only
          split_ifs <;> omega
        rw [hstep]
      · rw [List.foldl_cons, List.filter_cons_of_neg (by simpa using hw), ih]
        have hstep : (fillStep ta ed a o).dt = a.dt := by
          unfold fillStep
          rw [if_neg hw]
          split_ifs <;> rfl
        rw [hstep]

/-! ## C2 — volume-share fill formulas -/

/-- Counterexample to C2 as stated: for a sell (open amount −100) against a
trade of volume 100 at price 10, the emitted commission is `+3/4`, whereas
the claim's formula `|amount| · 0.03 · direction` gives `−3/4` (the code
multiplies the signed untruncated fill amount by `direction` a second
time, so the commission is always nonnegative). -/
theorem txn_commission_counterexample :
    (apply_trade_to_open_orders
      { open_orders := [(1, [{ sid := 1, amount := -100, dt := 0 }])],
        order_count := 1, txn_count := 0, algo_time := 0 }
      { sid := 1, price := 10, volume := 100, dt := 10 }).2 =
      some { sid := 1, amount := -25, dt := 10, price := 159/16,
             commission := 3/4 } ∧
    ¬ ((3 : ℚ)/4 = ((|(-25 : ℤ)| : ℤ) : ℚ) * (3/100) * (-1)) := by
  constructor
  · unfold apply_trade_to_open_orders
    rw [show (lookupOrders
        [(1, [{ sid := 1, amount := -100, dt := (0:ℤ) }])] (1:ℤ)) =
        some [{ sid := 1, amount := -100, dt := 0 }] from by decide]
    rw [if_neg (by decide)]
    dsimp only
    rw [show (List.foldl (fillStep (0:ℤ) (10:ℤ))
        { remaining := [], total := 0, dt := 10 }
        [{ sid := 1, amount := -100, dt := 0 }]) =
        ({ remaining := [], total := -100, dt := 10 } : FillAcc) from by decide]
    dsimp only [create_transaction]
    norm_num [fabs, intTrunc, commission_rate]
    exact_mod_cast Int.ceil_intCast (α := ℚ) (-25 : ℤ)
  · norm_num

/-- C2, amended: the emitted transaction has
`volume_share = min(|open_amount|/volume, 0.25)`,
`amount = ⌊volume_share·volume⌋·direction`,
`price = trade price + volume_share²·0.1·direction·trade price` as claimed,
but `commission = 0.03 · volume_share · volume` — computed from the
untruncated fill amount and always nonnegative, not
`|amount|·0.03·direction`. -/
theorem apply_trade_formulas
    (sim : TransactionSimulator) (event : TradeEvent) (orders : List OrderEvent)
    (t d : ℤ) (vs : ℚ)
    (hvol : 0 < event.volume)
    (hord : lookupOrders sim.open_orders event.sid = some orders)
    (ht : t = (tradeFillAcc sim event orders).total)
    (htot : t ≠ 0)
    (hd : d = if 0 < t then 1 else -1)
    (hvs : vs = min (|(t : ℚ)| / (event.volume : ℚ)) (1/4)) :
    ∃ txn, (apply_trade_to_open_orders sim event).2 = some txn ∧
      txn.sid = event.sid ∧
      txn.amount = ⌊vs * (event.volume : ℚ)⌋ * d ∧
      txn.price = event.price + vs ^ 2 * (1/10) * (d : ℚ) * event.price ∧
      txn.commission = commission_rate * vs * (event.volume : ℚ) := by
  unfold apply_trade_to_open_orders
  rw [if_neg (by omega), hord]
  dsimp only [create_transaction]
  unfold tradeFillAcc at ht
  rw [← ht]
  have hdcases : d = 1 ∨ d = -1 := by
    rw [hd]; split <;> simp
  have hdq : (if t ≠ 0 then (t : ℚ) / fabs (t : ℚ) else 1) = (d : ℚ) := by
    rw [if_pos htot, fabs_eq_abs, sign_div_abs t htot, hd]
  rw [hdq]
  have habs : (d : ℚ) * (t : ℚ) = |(t : ℚ)| := by
    rcases lt_or_gt_of_ne htot with h | h
    · rw [hd, if_neg (by omega),
        abs_of_neg (show (t : ℚ) < 0 by exact_mod_cast h)]
      push_cast
      ring
    · rw [hd, if_pos h, abs_of_pos (show (0 : ℚ) < (t : ℚ) by exact_mod_cast h)]
      push_cast
      ring
  rw [habs]
  have hcap : (if |(t : ℚ)| / (event.volume : ℚ) > 1/4 then 1/4
      else |(t : ℚ)| / (event.volume : ℚ)) = vs := by
    rw [hvs, min_def]
    split_ifs with h1 h2 <;> first | rfl | linarith
  rw [hcap]
  have hvolq : (0 : ℚ) ≤ (event.volume : ℚ) := by exact_mod_cast le_of_lt hvol
  have hvs0 : 0 ≤ vs * (event.volume : ℚ) := by
    apply mul_nonneg _ hvolq
    rw [hvs]
    exact le_min (div_nonneg (abs_nonneg _) hvolq) (by norm_num)
  refine ⟨_, rfl, rfl, ?_, rfl, ?_⟩
  · rcases hdcases with h | h <;> rw [h] <;> push_cast
    · rw [mul_one, mul_one, intTrunc_nonneg _ hvs0]
    · rw [mul_neg_one, mul_neg_one, intTrunc_neg_of_nonneg _ hvs0]
  · rcases hdcases with h | h <;> rw [h] <;> push_cast <;> ring

/-- Witness for the amended C2 at a concrete sell order and trade. -/
theorem apply_trade_formulas_witness :
    ∃ txn, (apply_trade_to_open_orders
      { open_orders := [(1, [{ sid := 1, amount := -100, dt := 0 }])],
        order_count := 1, txn_count := 0, algo_time := 0 }
      { sid := 1, price := 10, volume := 100, dt := 10 }).2 = some txn ∧
      txn.sid = 1 ∧
      txn.amount = ⌊(1/4 : ℚ) * ((100 : ℤ) : ℚ)⌋ * (-1) ∧
      txn.price = 10 + (1/4 : ℚ) ^ 2 * (1/10) * ((-1 : ℤ) : ℚ) * 10 ∧
      txn.commission = commission_rate * (1/4) * ((100 : ℤ) : ℚ) := by
  exact apply_trade_formulas
    { open_orders := [(1, [{ sid := 1, amount := -100, dt := 0 }])],
      order_count := 1, txn_count := 0, algo_time := 0 }
    { sid := 1, price := 10, volume := 100, dt := 10 }
    [{ sid := 1, amount := -100, dt := 0 }]
    (-100) (-1) (1/4) (by decide) rfl (by decide) (by decide) (by decide)
    (by norm_num)

/-! ## C5 — order eligibility window -/

/-- Counterexample to C5 as stated: an order whose creation `dt` equals the
trade's `dt` is counted into the fill (the code admits any order with
`order.dt − trade.dt < 30 s`), producing a transaction of 25 shares where
the claim says such an order contributes nothing. -/
theorem coincident_order_fills_counterexample :
    (apply_trade_to_open_orders
      { open_orders := [(1, [{ sid := 1, amount := 100, dt := 10 }])],
        order_count := 1, txn_count := 0, algo_time := 10 }
      { sid := 1, price := 10, volume := 100, dt := 10 }).2 =
      some { sid := 1, amount := 25, dt := 10, price := 161/16,
             commission := 3/4 } ∧
    (25 : ℤ) ≠ 0 := by
  constructor
  · unfold apply_trade_to_open_orders
    rw [show (lookupOrders
        [(1, [{ sid := 1, amount := 100, dt := (10:ℤ) }])] (1:ℤ)) =
        some [{ sid := 1, amount := 100, dt := 10 }] from by decide]
    rw [if_neg (by decide)]
    dsimp only
    rw [show (List.foldl (fillStep (10:ℤ) (10:ℤ))
        { remaining := [], total := 0, dt := 10 }
        [{ sid := 1, amount := 100, dt := 10 }]) =
        ({ remaining := [], total := 100, dt := 10 } : FillAcc) from by decide]
    dsimp only [create_transaction]
    norm_num [fabs, intTrunc, commission_rate]
  · decide

/-- C5, amended: only orders created less than 30 seconds (the trade
window) after the trade's `dt` are eligible; an order created at or after
`trade.dt + 30 s` contributes nothing to the fill — deleting it from the
open list leaves the emitted transaction unchanged.  (Orders created at or
even shortly after the trade's `dt` do fill.) -/
theorem out_of_window_order_no_contribution
    (sim : TransactionSimulator) (event : TradeEvent) (o : OrderEvent)
    (pre post : List OrderEvent)
    (hord : lookupOrders sim.open_orders event.sid = some (pre ++ o :: post))
    (hwin : trade_window ≤ o.dt - event.dt) :
    (apply_trade_to_open_orders sim event).2 =
      (apply_trade_to_open_orders
        { sim with open_orders :=
            setOrders sim.open_orders event.sid (pre ++ post) } event).2 := by
  by_cases hv : event.volume = 0
  · unfold apply_trade_to_open_orders
    rw [if_pos hv, if_pos hv]
  · unfold apply_trade_to_open_orders
    rw [if_neg hv, if_neg hv]
    dsimp only
    rw [hord,
      lookupOrders_setOrders event.sid (pre ++ post) _ (by rw [hord]; rfl)]
    dsimp only [create_transaction]
    have hfold :
        ((pre ++ o :: post).foldl (fillStep sim.algo_time event.dt)
          { remaining := [], total := 0, dt := event.dt }).total =
        ((pre ++ post).foldl (fillStep sim.algo_time event.dt)
          { remaining := [], total := 0, dt := event.dt }).total ∧
        ((pre ++ o :: post).foldl (fillStep sim.algo_time event.dt)
          { remaining := [], total := 0, dt := event.dt }).dt =
        ((pre ++ post).foldl (fillStep sim.algo_time event.dt)
          { remaining := [], total := 0, dt := event.dt }).dt := by
      rw [List.foldl_append, List.foldl_append, List.foldl_cons]
      obtain ⟨h1, h2⟩ := fillStep_skip sim.algo_time event.dt
        (pre.foldl (fillStep sim.algo_time event.dt)
          { remaining := [], total := 0, dt := event.dt }) o hwin
      exact foldl_fillStep_total_dt _ _ post _ _ h1 h2
    rw [hfold.1, hfold.2]

/-- Witness for the amended C5: an order 40 seconds after the trade is
dropped from the fill without changing the emitted transaction. -/
theorem out_of_window_order_no_contribution_witness :
    (apply_trade_to_open_orders
      { open_orders := [(1, [{ sid := 1, amount := 100, dt := 50 }])],
        order_count := 1, txn_count := 0, algo_time := 10 }
      { sid := 1, price := 10, volume := 100, dt := 10 }).2 =
      (apply_trade_to_open_orders
        { open_orders := setOrders [(1, [{ sid := 1, amount := 100, dt := 50 }])] 1 ([] ++ []),
          order_count := 1, txn_count := 0, algo_time := 10 }
        { sid := 1, price := 10, volume := 100, dt := 10 }).2 := by
  exact out_of_window_order_no_contribution
    { open_orders := [(1, [{ sid := 1, amount := 100, dt := 50 }])],
      order_count := 1, txn_count := 0, algo_time := 10 }
    { sid := 1, price := 10, volume := 100, dt := 10 }
    { sid := 1, amount := 100, dt := 50 } [] []
    (by decide) (by decide)

/-! ## C10 — transaction timestamps -/

/-- C10: for a positive-volume trade applied to the open orders of its sid,
the emitted transaction's `dt` is the maximum of the trade's `dt` and the
creation `dt`s of the orders counted into the fill (those created less
than the 30-second trade window after the trade), so it can be strictly
later than the trade's own `dt`. -/
theorem txn_dt_is_max
    (sim : TransactionSimulator) (event : TradeEvent) (orders : List OrderEvent)
    (hvol : 0 < event.volume)
    (hord : lookupOrders sim.open_orders event.sid = some orders) :
    ∃ txn, (apply_trade_to_open_orders sim event).2 = some txn ∧
      txn.dt = (orders.filter
          (fun o => decide (o.dt - event.dt < trade_window))).foldl
        (fun dacc o => max dacc o.dt) event.dt := by
  unfold apply_trade_to_open_orders
  rw [if_neg (by omega), hord]
  dsimp only [create_transaction]
  exact ⟨_, rfl, by rw [foldl_fillStep_dt]⟩

/-- Witness for C10: an order placed 20 seconds after the trade pushes the
transaction's timestamp 20 seconds past the trade's. -/
theorem txn_dt_is_max_witness :
    ∃ txn, (apply_trade_to_open_orders
      { open_orders := [(2, [{ sid := 2, amount := 10, dt := 120 }])],
        order_count := 1, txn_count := 0, algo_time := 100 }
      { sid := 2, price := 5, volume := 100, dt := 100 }).2 = some txn ∧
      txn.dt = 120 ∧ 100 < txn.dt := by
  obtain ⟨txn, h1, h2⟩ := txn_dt_is_max
    { open_orders := [(2, [{ sid := 2, amount := 10, dt := 120 }])],
      order_count := 1, txn_count := 0, algo_time := 100 }
    { sid := 2, price := 5, volume := 100, dt := 100 }
    [{ sid := 2, amount := 10, dt := 120 }]
    (by decide) rfl
  have h3 : txn.dt = 120 := by rw [h2]; decide
  exact ⟨txn, h1, h3, by rw [h3]; decide⟩

/-! ## C7 — max_capital_used is monotone -/

theorem pyRound_ge_floor (q : ℚ) : ⌊q⌋ ≤ pyRound q := by
  unfold pyRound
  dsimp only
  split_ifs <;> omega

theorem round_to_nearest_5000 (x : ℚ) :
    round_to_nearest x 5000 = 5000 * pyRound (x / 5000) := by
  unfold round_to_nearest
  rw [show ((5000 : ℚ) * (pyRound (x / 5000) : ℚ)) =
      (((5000 * pyRound (x / 5000) : ℤ)) : ℚ) by push_cast; ring]
  exact intTrunc_intCast _

theorem updateCapital_mono (s : CapitalState) (tc : ℚ) (k : ℕ)
    (hk : s.max_capital_used = 5000 * (k : ℚ)) :
    s.max_capital_used ≤ (updateCapital s tc).max_capital_used ∧
    ∃ k' : ℕ, (updateCapital s tc).max_capital_used = 5000 * (k' : ℚ) := by
  unfold updateCapital
  dsimp only
  set ccu := s.cumulative_capital_used + tc with hccu
  set m1 := if |ccu| > s.max_capital_used then |ccu| else s.max_capital_used
    with hm1
  have hm1ge : s.max_capital_used ≤ m1 := by
    rw [hm1]
    split_ifs with h
    · exact le_of_lt h
    · exact le_refl _
  have h5k : (5000 : ℚ) * k ≤ m1 := hk ▸ hm1ge
  have hm1nn : (0 : ℚ) ≤ m1 := le_trans (by positivity) h5k
  have hky : (k : ℚ) ≤ 11/10 * m1 / 5000 := by
    rw [le_div_iff₀ (by norm_num)]
    nlinarith
  have hK : (k : ℤ) ≤ pyRound (11/10 * m1 / 5000) := by
    exact le_trans (Int.le_floor.mpr (by exact_mod_cast hky))
      (pyRound_ge_floor _)
  have hKnn : (0 : ℤ) ≤ pyRound (11/10 * m1 / 5000) :=
    le_trans (by exact_mod_cast Nat.zero_le k) hK
  constructor
  · rw [round_to_nearest_5000, hk]
    push_cast
    have hc : (k : ℚ) ≤ (pyRound (11/10 * m1 / 5000) : ℚ) := by
      exact_mod_cast hK
    nlinarith
  · refine ⟨(pyRound (11/10 * m1 / 5000)).toNat, ?_⟩
    rw [round_to_nearest_5000]
    have hcast : ((pyRound (11/10 * m1 / 5000)).toNat : ℚ) =
        ((pyRound (11/10 * m1 / 5000) : ℤ) : ℚ) := by
      exact_mod_cast Int.toNat_of_nonneg hKnn
    rw [hcast]
    push_cast
    ring

theorem capital_mcu_multiple (evs : List (Option Transaction)) :
    ∃ k : ℕ, (evs.foldl processEventCapital
      CapitalState.initial).max_capital_used = 5000 * (k : ℚ) := by
  suffices h : ∀ s : CapitalState,
      (∃ k : ℕ, s.max_capital_used = 5000 * (k : ℚ)) →
      ∃ k : ℕ, (evs.foldl processEventCapital s).max_capital_used =
        5000 * (k : ℚ) by
    exact h CapitalState.initial ⟨0, by simp [CapitalState.initial]⟩
  induction evs with
  | nil => intro s hs; exact hs
  | cons e rest ih =>
      intro s hs
      rw [List.foldl_cons]
      apply ih
      obtain ⟨k, hk⟩ := hs
      cases e with
      | none => exact ⟨k, hk⟩
      | some t => exact (updateCapital_mono s _ k hk).2

/-- C7: along every sequence of events processed from a fresh tracker,
`max_capital_used` never decreases: appending one more event (carrying a
transaction or not) can only leave it equal or larger, under the update
rule `max_capital_used ← round_to_nearest(1.1 · max(|ccu|, mcu), 5000)`. -/
theorem max_capital_used_monotone (evs : List (Option Transaction))
    (e : Option Transaction) :
    (evs.foldl processEventCapital
      CapitalState.initial).max_capital_used ≤
    ((evs ++ [e]).foldl processEventCapital
      CapitalState.initial).max_capital_used := by
  rw [List.foldl_append, List.foldl_cons, List.foldl_nil]
  obtain ⟨k, hk⟩ := capital_mcu_multiple evs
  cases e with
  | none => exact le_refl _
  | some t => exact (updateCapital_mono _ _ k hk).1

/-! ## C8 — wire round-trips -/

/-- C8: for each wire type (Trade, Transaction, Order-from-source) whose
`dt` is a (valid) UTC datetime and whose type tag meets the frame's
assertions, decoding the encoding returns the event unchanged, with the
datetime reproduced exactly to microsecond precision; `PACK_DATE` and
`UNPACK_DATE` are mutually inverse. -/
theorem wire_roundtrip :
    (∀ d : UTCDateTime, d.valid = true →
      UNPACK_DATE (PACK_DATE d) = some d) ∧
    (∀ t : PackedDate, ∀ d, UNPACK_DATE t = some d → PACK_DATE d = t) ∧
    (∀ e : TradeMsg, e.type = DATASOURCE_TYPE_TRADE → e.dt.valid = true →
      (TRADE_FRAME e).bind TRADE_UNFRAME = some e) ∧
    (∀ e : TransactionMsg, e.dt.valid = true →
      TRANSACTION_UNFRAME (TRANSACTION_FRAME e) = some e) ∧
    (∀ e : OrderSourceMsg, e.type = DATASOURCE_TYPE_ORDER →
      e.dt.valid = true →
      (ORDER_SOURCE_FRAME e).bind ORDER_SOURCE_UNFRAME = some e) := by
  have hup : ∀ d : UTCDateTime, d.valid = true →
      UNPACK_DATE (PACK_DATE d) = some d := by
    intro d h
    unfold UNPACK_DATE PACK_DATE
    dsimp only
    rw [if_pos h]
  refine ⟨hup, ?_, ?_, ?_, ?_⟩
  · intro t d h
    unfold UNPACK_DATE at h
    dsimp only at h
    split_ifs at h with hv
    injection h with h'
    subst h'
    rfl
  · intro e htype hdt
    unfold TRADE_FRAME
    rw [if_pos htype]
    unfold TRADE_UNFRAME
    dsimp only [Option.bind]
    rw [hup e.dt hdt]
    rfl
  · intro e hdt
    unfold TRANSACTION_FRAME TRANSACTION_UNFRAME
    dsimp only
    rw [hup e.dt hdt]
    rfl
  · intro e htype hdt
    unfold ORDER_SOURCE_FRAME
    rw [if_pos htype]
    unfold ORDER_SOURCE_UNFRAME
    dsimp only [Option.bind]
    rw [hup e.dt hdt]
    rfl

/-- Witness for C8 at concrete messages, including a microsecond-precision
timestamp and a leap-day boundary timestamp. -/
theorem wire_roundtrip_witness :
    (TRADE_FRAME sampleTradeMsg).bind TRADE_UNFRAME = some sampleTradeMsg ∧
    TRANSACTION_UNFRAME (TRANSACTION_FRAME sampleTxnMsg) =
      some sampleTxnMsg ∧
    (ORDER_SOURCE_FRAME sampleOrderMsg).bind ORDER_SOURCE_UNFRAME =
      some sampleOrderMsg ∧
    UNPACK_DATE (PACK_DATE sampleDT) = some sampleDT := by
  refine ⟨?_, ?_, ?_, ?_⟩
  · exact wire_roundtrip.2.2.1 sampleTradeMsg rfl (by decide)
  · exact wire_roundtrip.2.2.2.1 sampleTxnMsg (by decide)
  · exact wire_roundtrip.2.2.2.2 sampleOrderMsg rfl (by decide)
  · exact wire_roundtrip.1 sampleDT (by decide)

/-! ## C9 — heartbeat failure detection -/

/-- Counterexample to C9 as stated: component 0 answers the first
heartbeat, misses only the second, and is already removed from the tracked
set by `beat` — it is declared failed after a single missed heartbeat
period, not two. -/
theorem single_missed_heartbeat_counterexample :
    Controller.beat { tracked := {0}, topology := {0}, freeform := false }
      {0} =
      some { tracked := {0}, topology := {0}, freeform := false } ∧
    Controller.beat { tracked := {0}, topology := {0}, freeform := false }
      ∅ =
      some { tracked := ∅, topology := {0}, freeform := false } ∧
    (0 : ℕ) ∉ (∅ : Finset ℕ) := by
  refine ⟨?_, ?_, by decide⟩ <;> decide

/-- C9, amended: `Controller.beat` removes a tracked component as soon as
it misses a single heartbeat (it is in `tracked` but not in `responses`),
and keeps every tracked component that responded. -/
theorem beat_tracked_iff_responded (s : ControllerState)
    (responses : Finset ℕ) (c : ℕ) (s' : ControllerState)
    (hb : Controller.beat s responses = some s') :
    (c ∈ s.tracked → c ∉ responses → c ∉ s'.tracked) ∧
    (c ∈ s.tracked → c ∈ responses → c ∈ s'.tracked) := by
  unfold Controller.beat at hb
  dsimp only at hb
  split_ifs at hb with h
  injection hb with hb'
  subst hb'
  constructor
  · intro hc hr
    simp [Finset.mem_sdiff, Finset.mem_union, Finset.mem_inter]
    tauto
  · intro hc hr
    simp [Finset.mem_sdiff, Finset.mem_union, Finset.mem_inter]
    tauto

/-- Witness for the amended C9: with component 0 tracked and an empty
response set, one beat removes it. -/
theorem beat_tracked_iff_responded_witness :
    ((0 : ℕ) ∈ ({0} : Finset ℕ) → (0 : ℕ) ∉ (∅ : Finset ℕ) →
      (0 : ℕ) ∉ (∅ : Finset ℕ)) ∧
    ((0 : ℕ) ∈ ({0} : Finset ℕ) → (0 : ℕ) ∈ (∅ : Finset ℕ) →
      (0 : ℕ) ∈ (∅ : Finset ℕ)) := by
  have h := beat_tracked_iff_responded
    { tracked := {0}, topology := {0}, freeform := false } ∅ 0
    { tracked := ∅, topology := {0}, freeform := false } (by decide)
  exact h

/-! ## C1 — Feed chronological ordering -/
theorem ascIntsB_chain' : ∀ l : List ℤ, ascIntsB l = true → l.Chain' (· ≤ ·) := by
  intro l
  induction l with
  | nil => intro _; exact List.chain'_nil
  | cons a t ih =>
      cases t with
      | nil => intro _; simp
      | cons b t' =>
          intro h
          unfold ascIntsB at h
          rw [Bool.and_eq_true, decide_eq_true_eq] at h
          exact List.Chain'.cons h.1 (ih h.2)

theorem chain'_le_head {x : ℤ} {xs : List ℤ}
    (h : (x :: xs).Chain' (· ≤ ·)) : ∀ y ∈ x :: xs, x ≤ y := by
  intro y hy
  rw [List.chain'_iff_pairwise] at h
  rcases List.mem_cons.mp hy with rfl | hy'
  · exact le_refl y
  · exact (List.pairwise_cons.mp h).1 y hy'

theorem set_get?_self : ∀ (l : List Bool) (i : ℕ) (b : Bool),
    l.get? i = some b → l.set i b = l := by
  intro l
  induction l with
  | nil => intro i b h; cases i <;> simp at h
  | cons a t ih =>
      intro i b h
      cases i with
      | zero =>
          simp at h
          simp [h]
      | succ n =>
          rw [List.get?_cons_succ] at h
          simp [List.set_cons_succ, ih n b h]

theorem queueDts_getLast? :
    ∀ q : List FeedEvent, (∀ e ∈ q, e.dt.isSome = true) →
      (queueDts q).getLast? = q.getLast?.bind (fun e => e.dt) := by
  intro q
  induction q using List.reverseRecOn with
  | nil => intro _; rfl
  | append_singleton q' a ih =>
      intro h
      have ha : a.dt.isSome = true := h a (by simp)
      obtain ⟨d, hd⟩ := Option.isSome_iff_exists.mp ha
      unfold queueDts
      rw [List.filterMap_append, List.getLast?_append]
      simp [queueDts, hd]



theorem feedScan_spec :
    ∀ (bufs : List SourceBuf) (k : ℕ) (acc : Option (ℤ × ℕ)),
      (∀ b ∈ bufs, ∀ e ∈ b.queue, e.dt.isSome = true) →
      (feedScan bufs k acc).1 = bufs ∧
      ((feedScan bufs k acc).2 = none →
        acc = none ∧ ∀ b ∈ bufs, b.queue = []) ∧
      (∀ d j, (feedScan bufs k acc).2 = some (d, j) →
        ((acc = some (d, j)) ∨
          (k ≤ j ∧ ∃ b e tl, bufs.get? (j - k) = some b ∧ b.queue = e :: tl ∧
            e.dt = some d)) ∧
        (∀ d₀ j₀, acc = some (d₀, j₀) → d ≤ d₀) ∧
        (∀ i b e tl d', bufs.get? i = some b → b.queue = e :: tl →
          e.dt = some d' → d ≤ d')) := by
  intro bufs
  induction bufs with
  | nil =>
      intro k acc hnf
      refine ⟨rfl, ?_, ?_⟩
      · intro h
        exact ⟨h, by simp⟩
      · intro d j h
        refine ⟨Or.inl h, ?_, ?_⟩
        · intro d₀ j₀ ha
          rw [ha] at h
          injection h with h'
          injection h' with h1 h2
          omega
        · intro i b e tl d' hget
          simp at hget
      | cons b rest ih =>
      intro k acc hnf
      have hnf' : ∀ b' ∈ rest, ∀ e ∈ b'.queue, e.dt.isSome = true :=
        fun b' hb' => hnf b' (List.mem_cons_of_mem b hb')
      rcases hq : b.queue with _ | ⟨e, tl⟩
      · have hstep : feedScan (b :: rest) k acc =
            ((b :: (feedScan rest (k + 1) acc).1),
              (feedScan rest (k + 1) acc).2) := by
          simp only [feedScan]
          rw [hq]
        obtain ⟨ih1, ih2, ih3⟩ := ih (k + 1) acc hnf'
        rw [hstep]
        refine ⟨?_, ?_, ?_⟩
        · simp [ih1]
        · intro h
          obtain ⟨hacc, hall⟩ := ih2 h
          refine ⟨hacc, ?_⟩
          intro b' hb'
          rcases List.mem_cons.mp hb' with rfl | hb''
          · exact hq
          · exact hall b' hb''
        · intro d j h
          obtain ⟨hprov, hbound, hmin⟩ := ih3 d j h
          refine ⟨?_, hbound, ?_⟩
          · rcases hprov with hl | ⟨hkj, b', e', tl', hget, hq', hdt'⟩
            · exact Or.inl hl
            · refine Or.inr ⟨by omega, b', e', tl', ?_, hq', hdt'⟩
              have harith : j - k = (j - (k + 1)) + 1 := by omega
              rw [harith, List.get?_cons_succ]
              exact hget
          · intro i b' e' tl' d' hget hq' hdt'
            cases i with
            | zero =>
                rw [List.get?_cons_zero] at hget
                injection hget with hget'
                rw [← hget', hq] at hq'
                exact absurd hq' (by simp)
            | succ n =>
                rw [List.get?_cons_succ] at hget
                exact hmin n b' e' tl' d' hget hq' hdt'
      · rcases hdt : e.dt with _ | dh
        · exfalso
          have := hnf b (List.mem_cons_self b rest) e (by rw [hq]; simp)
          rw [hdt] at this
          simp at this
        · have key : ∀ accv : Option (ℤ × ℕ),
              feedScan (b :: rest) k acc =
                ((b :: (feedScan rest (k + 1) accv).1),
                  (feedScan rest (k + 1) accv).2) →
              accv.isSome = true →
              (∀ p : ℤ × ℕ, accv = some p → p.1 ≤ dh ∧
                (∀ d₀ j₀, acc = some (d₀, j₀) → p.1 ≤ d₀) ∧
                (acc = some p ∨ p = (dh, k))) →
              (feedScan (b :: rest) k acc).1 = b :: rest ∧
              ((feedScan (b :: rest) k acc).2 = none →
                acc = none ∧ ∀ b' ∈ b :: rest, b'.queue = []) ∧
              (∀ d j, (feedScan (b :: rest) k acc).2 = some (d, j) →
                ((acc = some (d, j)) ∨
                  (k ≤ j ∧ ∃ b' e' tl', (b :: rest).get? (j - k) = some b' ∧
                    b'.queue = e' :: tl' ∧ e'.dt = some d)) ∧
                (∀ d₀ j₀, acc = some (d₀, j₀) → d ≤ d₀) ∧
                (∀ i b' e' tl' d', (b :: rest).get? i = some b' →
                  b'.queue = e' :: tl' → e'.dt = some d' → d ≤ d')) := by
            intro accv hstep hsome hprops
            obtain ⟨ih1, ih2, ih3⟩ := ih (k + 1) accv hnf'
            rw [hstep]
            refine ⟨by simp [ih1], ?_, ?_⟩
            · intro h
              obtain ⟨haccv, _⟩ := ih2 h
              rw [haccv] at hsome
              simp at hsome
            · intro d j h
              obtain ⟨hprov, hbound, hmin⟩ := ih3 d j h
              obtain ⟨p, hp⟩ := Option.isSome_iff_exists.mp hsome
              obtain ⟨hpdh, hpacc, hpor⟩ := hprops p hp
              have hdp : d ≤ p.1 := by
                apply hbound p.1 p.2
                rw [hp]
              refine ⟨?_, ?_, ?_⟩
              · rcases hprov with hl | ⟨hkj, b', e', tl', hget, hq', hdt'⟩
                · have hpdj : p = (d, j) := by
                    rw [hp] at hl
                    injection hl
                  rcases hpor with hacc | hpk
                  · exact Or.inl (by rw [hacc, hpdj])
                  · rw [hpdj] at hpk
                    injection hpk with h1 h2
                    refine Or.inr ⟨by omega, b, e, tl, ?_, hq, ?_⟩
                    · rw [h2]
                      simp
                    · rw [hdt, h1]
                · refine Or.inr ⟨by omega, b', e', tl', ?_, hq', hdt'⟩
                  have harith : j - k = (j - (k + 1)) + 1 := by omega
                  rw [harith, List.get?_cons_succ]
                  exact hget
              · intro d₀ j₀ hacc
                exact le_trans hdp (hpacc d₀ j₀ hacc)
              · intro i b' e' tl' d' hget hq' hdt'
                cases i with
                | zero =>
                    rw [List.get?_cons_zero] at hget
                    injection hget with hget'
                    rw [← hget', hq] at hq'
                    injection hq' with he htl
                    rw [← he, hdt] at hdt'
                    injection hdt' with hdd
                    omega
                | succ n =>
                    rw [List.get?_cons_succ] at hget
                    exact hmin n b' e' tl' d' hget hq' hdt'
          rcases acc with _ | ⟨dp, jp⟩
          · apply key (some (dh, k))
            · simp only [feedScan, hq, hdt]
            · rfl
            · intro p hp
              injection hp with hp'
              rw [← hp']
              exact ⟨le_refl dh, by intro d₀ j₀ h; simp at h, Or.inr rfl⟩
          · by_cases hle : dh ≤ dp
            · apply key (some (dh, k))
              · simp only [feedScan, hq, hdt, if_pos hle]
              · rfl
              · intro p hp
                injection hp with hp'
                rw [← hp']
                refine ⟨le_refl dh, ?_, Or.inr rfl⟩
                intro d₀ j₀ h
                injection h with h'
                injection h' with h1 h2
                omega
            · apply key (some (dp, jp))
              · simp only [feedScan, hq, hdt, if_neg hle]
              · rfl
              · intro p hp
                injection hp with hp'
                rw [← hp']
                refine ⟨by omega, ?_, Or.inl rfl⟩
                intro d₀ j₀ h
                injection h with h'
                injection h' with h1 h2
                omega



theorem next_spec (s : FeedState) (hg : (isFull s || s.draining) = true)
    (hnf : ∀ b ∈ s.buffers, ∀ e ∈ b.queue, e.dt.isSome = true) :
    (Feed.next s = (s, none) ∧ ∀ b ∈ s.buffers, b.queue = []) ∨
    (∃ j b e tl d,
      s.buffers.get? j = some b ∧ b.queue = e :: tl ∧ e.dt = some d ∧
      Feed.next s =
        ({ s with buffers := s.buffers.set j { b with queue := tl } },
          some e) ∧
      (∀ i b' e' tl' d', s.buffers.get? i = some b' →
        b'.queue = e' :: tl' → e'.dt = some d' → d ≤ d')) := by
  obtain ⟨hfst, hnone, hsome⟩ := feedScan_spec s.buffers 0 none hnf
  rcases hsel : (feedScan s.buffers 0 none).2 with _ | ⟨d, j⟩
  · left
    obtain ⟨-, hall⟩ := hnone hsel
    constructor
    · unfold Feed.next
      rw [if_pos hg]
      dsimp only
      rw [hsel, hfst]
    · exact hall
  · right
    obtain ⟨hprov, -, hmin⟩ := hsome d j hsel
    rcases hprov with hl | ⟨-, b, e, tl, hget, hq, hdt⟩
    · simp at hl
    · rw [Nat.sub_zero] at hget
      refine ⟨j, b, e, tl, d, hget, hq, hdt, ?_, hmin⟩
      unfold Feed.next
      rw [if_pos hg]
      dsimp only
      rw [hsel, hfst]
      dsimp only
      rw [hget]
      dsimp only
      rw [hq]



theorem isFull_empty_done (s : FeedState) (hf : isFull s = true) :
    ∀ b ∈ s.buffers, b.queue = [] → b.done = true := by
  intro b hb hq
  unfold isFull at hf
  rw [List.all_eq_true] at hf
  have hfb := hf b hb
  rw [hq] at hfb
  simpa using hfb

theorem send_next_inv (s : FeedState) (lasts : List (Option ℤ))
    (m : Option ℤ) (hInv : FeedInv s lasts m) :
    ((Feed.send_next s).2 = none → FeedInv (Feed.send_next s).1 lasts m ∧
      donesOf (Feed.send_next s).1 = donesOf s) ∧
    (∀ ev, (Feed.send_next s).2 = some ev →
      ∃ d, ev.dt = some d ∧ dtLeAll m d ∧
        FeedInv (Feed.send_next s).1 lasts (some d) ∧
        donesOf (Feed.send_next s).1 = donesOf s) := by
  obtain ⟨hlen, hdrain, hper⟩ := hInv
  have hnf : ∀ b ∈ s.buffers, ∀ e ∈ b.queue, e.dt.isSome = true := by
    intro b hb
    obtain ⟨n, hn⟩ := List.mem_iff_get?.mp hb
    exact (hper n b hn).1
  unfold Feed.send_next
  split_ifs with hg
  · have hed : ∀ b ∈ s.buffers, b.queue = [] → b.done = true := by
      intro b hb hq
      rcases (by simpa using hg : isFull s = true ∨ s.draining = true)
        with hfull | hdr
      · exact isFull_empty_done s hfull b hb hq
      · exact hdrain hdr b hb
    rcases next_spec s hg hnf with ⟨heq, hall⟩ |
      ⟨j, b, e, tl, d, hget, hq, hdt, heq, hmin⟩
    · rw [heq]
      dsimp only
      exact ⟨fun _ => ⟨⟨hlen, hdrain, hper⟩, rfl⟩, fun ev hev => by simp at hev⟩
    · rw [heq]
      dsimp only
      have hqd : queueDts b.queue = d :: queueDts tl := by
        rw [hq]
        simp [queueDts, List.filterMap_cons, hdt]
      obtain ⟨bnf, bsort, bge, blast, bempty⟩ := hper j b hget
      have hdm : d ∈ queueDts b.queue := by rw [hqd]; exact List.mem_cons_self d _
      have hsortd : (d :: queueDts tl).Chain' (· ≤ ·) := hqd ▸ bsort
      have hinv' : FeedInv
          { buffers := s.buffers.set j { queue := tl, done := b.done },
            draining := s.draining, sent_count := s.sent_count + 1,
            received_count := s.received_count } lasts (some d) := by
        refine ⟨?_, ?_, ?_⟩
        · dsimp only
          rw [List.length_set]
          exact hlen
        · intro hdr b' hb'
          dsimp only at hb'
          obtain ⟨n, hn⟩ := List.mem_iff_get?.mp hb'
          by_cases hnj : n = j
          · subst hnj
            rw [List.get?_set_eq, hget] at hn
            have hn2 : ({ queue := tl, done := b.done } : SourceBuf) = b' := by
              simpa using hn
            rw [← hn2]
            exact hdrain hdr b (List.get?_mem hget)
          · rw [List.get?_set_ne _ _ (fun h => hnj h.symm)] at hn
            exact hdrain hdr b' (List.get?_mem hn)
        · intro i b' hb'
          dsimp only at hb'
          by_cases hij : i = j
          · subst hij
            rw [List.get?_set_eq, hget] at hb'
            have hb2 : ({ queue := tl, done := b.done } : SourceBuf) = b' := by
              simpa using hb'
            rw [← hb2]
            dsimp only
            refine ⟨?_, ?_, ?_, ?_, ?_⟩
            · intro e' he'
              exact bnf e' (by rw [hq]; exact List.mem_cons_of_mem _ he')
            · exact (List.chain'_cons'.mp hsortd).2
            · intro d' hd' x hx
              injection hx with hx'
              rw [← hx']
              exact chain'_le_head hsortd d' (List.mem_cons_of_mem _ hd')
            · intro e' he'
              apply blast
              rw [hq]
              rcases tl with _ | ⟨t0, tl'⟩
              · simp at he'
              · rw [List.getLast?_cons_cons]
                exact he'
            · intro htl hdone
              have hlast : b.queue.getLast? = some e := by
                rw [hq, htl]
                rfl
              have hlj := blast e hlast
              rw [hdt] at hlj
              constructor
              · intro hcontra
                rw [hlj] at hcontra
                simp at hcontra
              · intro d'' h
                rw [hlj] at h
                injection h with h'
                injection h' with h''
                intro x hx
                injection hx with hx'
                omega
          · rw [List.get?_set_ne _ _ (fun h => hij h.symm)] at hb'
            obtain ⟨bnf', bsort', bge', blast', bempty'⟩ := hper i b' hb'
            refine ⟨bnf', bsort', ?_, blast', ?_⟩
            · intro d' hd' x hx
              injection hx with hx'
              rw [← hx']
              rcases hq' : b'.queue with _ | ⟨e'', tl''⟩
              · rw [hq'] at hd'
                simp [queueDts] at hd'
              · have hdt'' := bnf' e'' (by rw [hq']; exact List.mem_cons_self _ _)
                obtain ⟨d₀, hd₀⟩ := Option.isSome_iff_exists.mp hdt''
                have hdle := hmin i b' e'' tl'' d₀ hb' hq' hd₀
                have hq'' : queueDts b'.queue = d₀ :: queueDts tl'' := by
                  rw [hq']
                  simp [queueDts, List.filterMap_cons, hd₀]
                have hsort'' : (d₀ :: queueDts tl'').Chain' (· ≤ ·) :=
                  hq'' ▸ bsort'
                rw [hq''] at hd'
                exact le_trans hdle (chain'_le_head hsort'' d' hd')
            · intro hqe hdone
              exact absurd (hed b' (List.get?_mem hb') hqe) (by rw [hdone]; simp)
      have hdones : donesOf
          { buffers := s.buffers.set j { queue := tl, done := b.done },
            draining := s.draining, sent_count := s.sent_count + 1,
            received_count := s.received_count } = donesOf s := by
        unfold donesOf
        dsimp only
        rw [List.map_set]
        apply set_get?_self
        rw [List.get?_map, hget]
        rfl
      refine ⟨fun h => by simp at h, ?_⟩
      intro ev hev
      injection hev with hev'
      rw [← hev']
      exact ⟨d, hdt, bge d hdm, hinv', hdones⟩
  · refine ⟨fun _ => ⟨⟨hlen, hdrain, hper⟩, rfl⟩, fun ev hev => by simp at hev⟩



theorem getLast?_mem {α : Type} {l : List α} {a : α}
    (h : l.getLast? = some a) : a ∈ l := by
  obtain ⟨hne, heq⟩ := List.mem_getLast?_eq_getLast
    (show a ∈ l.getLast? by rw [h]; rfl)
  rw [heq]
  exact List.getLast_mem hne

theorem append_inv (s : FeedState) (lasts : List (Option ℤ)) (m : Option ℤ)
    (e : FeedEvent) (d : ℤ) (last : Option ℤ)
    (hInv : FeedInv s lasts m)
    (hdt : e.dt = some d)
    (hlast : lasts.get? e.source_id = some last)
    (hdone : (donesOf s).get? e.source_id = some false)
    (hle : ∀ d₀, last = some d₀ → d₀ ≤ d) :
    FeedInv (Feed.append s e) (lasts.set e.source_id (some d)) m ∧
    donesOf (Feed.append s e) = donesOf s := by
  obtain ⟨hlen, hdrain, hper⟩ := hInv
  unfold donesOf at hdone
  rw [List.get?_map] at hdone
  rcases hb : s.buffers.get? e.source_id with _ | b
  · rw [hb] at hdone
    simp at hdone
  · rw [hb] at hdone
    have hbdone : b.done = false := by simpa using hdone
    obtain ⟨bnf, bsort, bge, blast, bempty⟩ := hper e.source_id b hb
    have happ : Feed.append s e =
        { s with
            buffers := s.buffers.set e.source_id
              { b with queue := b.queue ++ [e] },
            received_count := s.received_count + 1 } := by
      unfold Feed.append
      rw [hb]
    rw [happ]
    have hqd : queueDts (b.queue ++ [e]) = queueDts b.queue ++ [d] := by
      unfold queueDts
      rw [List.filterMap_append]
      simp [hdt]
    have hlink : ∀ x ∈ (queueDts b.queue).getLast?, x ≤ d := by
      intro x hx
      have hx' : (queueDts b.queue).getLast? = some x := hx
      rw [queueDts_getLast? b.queue bnf] at hx'
      rcases hgl : b.queue.getLast? with _ | elast
      · rw [hgl] at hx'
        simp at hx'
      · rw [hgl] at hx'
        have hx2 : elast.dt = some x := hx'
        have hthis := blast elast hgl
        rw [hx2, hlast] at hthis
        injection hthis with hl2
        exact hle x (by rw [← hl2])
    have hdge : dtLeAll m d := by
      intro x hx
      rcases hgl : b.queue.getLast? with _ | elast
      · have hqe : b.queue = [] := List.getLast?_eq_none_iff.mp hgl
        obtain ⟨h1, h2⟩ := bempty hqe hbdone
        rcases last with _ | d₀
        · rw [h1 hlast] at hx
          simp at hx
        · exact le_trans (h2 d₀ hlast x hx) (hle d₀ rfl)
      · have helm : elast ∈ b.queue := getLast?_mem hgl
        obtain ⟨d₀, hd₀⟩ := Option.isSome_iff_exists.mp (bnf elast helm)
        have hd₀m : d₀ ∈ queueDts b.queue := by
          unfold queueDts
          rw [List.mem_filterMap]
          exact ⟨elast, helm, hd₀⟩
        have h1 : x ≤ d₀ := bge d₀ hd₀m x hx
        have h2 := blast elast hgl
        rw [hlast, hd₀] at h2
        injection h2 with h2'
        exact le_trans h1 (hle d₀ (by rw [← h2']))
    refine ⟨⟨?_, ?_, ?_⟩, ?_⟩
    · dsimp only
      rw [List.length_set, List.length_set]
      exact hlen
    · intro hdr
      exact absurd (hdrain hdr b (List.get?_mem hb)) (by rw [hbdone]; simp)
    · intro i b' hb'
      dsimp only at hb'
      by_cases hij : i = e.source_id
      · subst hij
        rw [List.get?_set_eq, hb] at hb'
        have hb2 : ({ b with queue := b.queue ++ [e] } : SourceBuf) = b' := by
          simpa using hb'
        rw [← hb2]
        dsimp only
        refine ⟨?_, ?_, ?_, ?_, ?_⟩
        · intro e' he'
          rcases List.mem_append.mp he' with h | h
          · exact bnf e' h
          · rw [List.mem_singleton.mp h, hdt]
            rfl
        · rw [hqd]
          rw [List.chain'_append]
          exact ⟨bsort, List.chain'_singleton d, by
            intro x hx y hy
            rw [List.head?_cons] at hy
            injection hy with hy'
            rw [← hy']
            exact hlink x hx⟩
        · intro d' hd'
          rw [hqd] at hd'
          rcases List.mem_append.mp hd' with h | h
          · exact bge d' h
          · rw [List.mem_singleton.mp h]
            exact hdge
        · intro e' he'
          rw [List.getLast?_append] at he'
          simp only [List.getLast?_singleton, Option.or_some] at he'
          injection he' with he''
          rw [← he'', hdt, List.get?_set_eq, hlast]
          rfl
        · intro hcontra
          simp at hcontra
      · rw [List.get?_set_ne _ _ (fun h => hij h.symm)] at hb'
        obtain ⟨bnf', bsort', bge', blast', bempty'⟩ := hper i b' hb'
        refine ⟨bnf', bsort', bge', ?_, ?_⟩
        · intro e' he'
          rw [List.get?_set_ne _ _ (fun h => hij h.symm)]
          exact blast' e' he'
        · intro hqe hdf
          rw [List.get?_set_ne _ _ (fun h => hij h.symm)]
          exact bempty' hqe hdf
    · unfold donesOf
      dsimp only
      rw [List.map_set]
      apply set_get?_self
      rw [List.get?_map, hb]
      rfl



theorem markDone_inv (s : FeedState) (lasts : List (Option ℤ))
    (m : Option ℤ) (i : ℕ) (hInv : FeedInv s lasts m) :
    FeedInv (Feed.markDone s i) lasts m ∧
    donesOf (Feed.markDone s i) = (donesOf s).set i true := by
  obtain ⟨hlen, hdrain, hper⟩ := hInv
  rcases hb : s.buffers.get? i with _ | b
  · have hmd : Feed.markDone s i = s := by
      unfold Feed.markDone
      rw [hb]
    rw [hmd]
    refine ⟨⟨hlen, hdrain, hper⟩, ?_⟩
    rw [List.set_eq_of_length_le]
    unfold donesOf
    rw [List.length_map]
    exact List.get?_eq_none.mp hb
  · have hmd : Feed.markDone s i =
        { s with buffers := s.buffers.set i { b with done := true } } := by
      unfold Feed.markDone
      rw [hb]
    rw [hmd]
    refine ⟨⟨?_, ?_, ?_⟩, ?_⟩
    · dsimp only
      rw [List.length_set]
      exact hlen
    · intro hdr b' hb'
      dsimp only at hb'
      obtain ⟨n, hn⟩ := List.mem_iff_get?.mp hb'
      by_cases hni : n = i
      · subst hni
        rw [List.get?_set_eq, hb] at hn
        have hn2 : ({ b with done := true } : SourceBuf) = b' := by
          simpa using hn
        rw [← hn2]
      · rw [List.get?_set_ne _ _ (fun h => hni h.symm)] at hn
        exact hdrain hdr b' (List.get?_mem hn)
    · intro n b' hb'
      dsimp only at hb'
      by_cases hni : n = i
      · subst hni
        rw [List.get?_set_eq, hb] at hb'
        have hb2 : ({ b with done := true } : SourceBuf) = b' := by
          simpa using hb'
        rw [← hb2]
        dsimp only
        obtain ⟨bnf, bsort, bge, blast, bempty⟩ := hper n b hb
        refine ⟨bnf, bsort, bge, blast, ?_⟩
        intro hqe hcontra
        simp at hcontra
      · rw [List.get?_set_ne _ _ (fun h => hni h.symm)] at hb'
        exact hper n b' hb'
    · unfold donesOf
      dsimp only
      rw [List.map_set]

theorem drain_inv (s : FeedState) (lasts : List (Option ℤ)) (m : Option ℤ)
    (hInv : FeedInv s lasts m)
    (hall : (donesOf s).all (· = true) = true) :
    FeedInv { s with draining := true } lasts m ∧
    donesOf { s with draining := true } = donesOf s := by
  obtain ⟨hlen, hdrain, hper⟩ := hInv
  refine ⟨⟨hlen, ?_, hper⟩, rfl⟩
  intro _ b hb
  rw [List.all_eq_true] at hall
  have := hall b.done (by
    unfold donesOf
    rw [List.mem_map]
    exact ⟨b, hb, rfl⟩)
  simpa using this



theorem feedWF_inv (s : FeedState) (hwf : feedWF s = true) :
    FeedInv s (lastsOf s) none := by
  unfold feedWF at hwf
  rw [Bool.and_eq_true, List.all_eq_true] at hwf
  obtain ⟨hq, hdr⟩ := hwf
  refine ⟨?_, ?_, ?_⟩
  · unfold lastsOf
    rw [List.length_map]
  · intro hdrt b hb
    rw [hdrt] at hdr
    simp only [Bool.not_true, Bool.false_or] at hdr
    rw [List.all_eq_true] at hdr
    simpa using hdr b hb
  · intro i b hb
    have hqb := hq b (List.get?_mem hb)
    rw [Bool.and_eq_true] at hqb
    obtain ⟨hnf, hasc⟩ := hqb
    rw [List.all_eq_true] at hnf
    refine ⟨hnf, ascIntsB_chain' _ hasc, ?_, ?_, ?_⟩
    · intro d _ x hx
      simp at hx
    · intro e he
      unfold lastsOf
      rw [List.get?_map, hb]
      simp only [Option.map_some']
      rw [he]
    · intro hqe _
      constructor
      · intro _
        rfl
      · intro d hcontra
        unfold lastsOf at hcontra
        rw [List.get?_map, hb] at hcontra
        simp only [Option.map_some'] at hcontra
        rw [hqe] at hcontra
        simp at hcontra

theorem runFeed_chain : ∀ (cmds : List FeedCmd) (s : FeedState)
    (lasts : List (Option ℤ)) (m : Option ℤ),
    FeedInv s lasts m →
    legalFrom lasts (donesOf s) cmds = true →
    (m.toList ++ (runFeed s cmds).2.filterMap (fun e => e.dt)).Chain'
      (· ≤ ·) := by
  intro cmds
  induction cmds with
  | nil =>
      intro s lasts m _ _
      cases m <;> simp [runFeed]
  | cons c cs ih =>
      intro s lasts m hInv hleg
      cases c with
      | append e =>
          rcases hdt : e.dt with _ | d
          · simp only [legalFrom, hdt] at hleg
            exact absurd hleg (by simp)
          · rcases hl : lasts.get? e.source_id with _ | last
            · simp only [legalFrom, hdt, hl] at hleg
              exact absurd hleg (by simp)
            · rcases hdn : (donesOf s).get? e.source_id with _ | dn
              · simp only [legalFrom, hdt, hl, hdn] at hleg
                exact absurd hleg (by simp)
              · cases dn with
                | true =>
                    simp only [legalFrom, hdt, hl, hdn] at hleg
                    exact absurd hleg (by simp)
                | false =>
                    simp only [legalFrom, hdt, hl, hdn] at hleg
                    rw [Bool.and_eq_true] at hleg
                    obtain ⟨hcond, hrest⟩ := hleg
                    have hle : ∀ d₀, last = some d₀ → d₀ ≤ d := by
                      intro d₀ h0
                      rw [h0] at hcond
                      simpa using hcond
                    obtain ⟨hinv', hdones⟩ :=
                      append_inv s lasts m e d last hInv hdt hl hdn hle
                    have hrun : (runFeed s (FeedCmd.append e :: cs)).2 =
                        (runFeed (Feed.append s e) cs).2 := rfl
                    rw [hrun]
                    exact ih (Feed.append s e) _ m hinv'
                      (by rw [hdones]; exact hrest)
      | markDone i =>
          simp only [legalFrom] at hleg
          rw [Bool.and_eq_true] at hleg
          obtain ⟨hsome, hrest⟩ := hleg
          obtain ⟨hinv', hdones⟩ := markDone_inv s lasts m i hInv
          have hrun : (runFeed s (FeedCmd.markDone i :: cs)).2 =
              (runFeed (Feed.markDone s i) cs).2 := rfl
          rw [hrun]
          exact ih _ lasts m hinv' (by rw [hdones]; exact hrest)
      | startDrain =>
          simp only [legalFrom] at hleg
          rw [Bool.and_eq_true] at hleg
          obtain ⟨hall, hrest⟩ := hleg
          obtain ⟨hinv', hdones⟩ := drain_inv s lasts m hInv hall
          have hrun : (runFeed s (FeedCmd.startDrain :: cs)).2 =
              (runFeed { s with draining := true } cs).2 := rfl
          rw [hrun]
          exact ih _ lasts m hinv' (by rw [hdones]; exact hrest)
      | emit =>
          have hleg' : legalFrom lasts (donesOf s) cs = true := hleg
          obtain ⟨hn, hs⟩ := send_next_inv s lasts m hInv
          rcases hss : (Feed.send_next s).2 with _ | ev
          · obtain ⟨hinv', hdones⟩ := hn hss
            have hrun : (runFeed s (FeedCmd.emit :: cs)).2 =
                (runFeed (Feed.send_next s).1 cs).2 := by
              simp only [runFeed, feedStep]
              rw [hss]
            rw [hrun]
            exact ih _ lasts m hinv' (by rw [hdones]; exact hleg')
          · obtain ⟨d, hevdt, hml, hinv', hdones⟩ := hs ev hss
            have hrun : (runFeed s (FeedCmd.emit :: cs)).2 =
                ev :: (runFeed (Feed.send_next s).1 cs).2 := by
              simp only [runFeed, feedStep]
              rw [hss]
            rw [hrun]
            have hihx := ih (Feed.send_next s).1 lasts (some d) hinv'
              (by rw [hdones]; exact hleg')
            have hfm : (ev :: (runFeed (Feed.send_next s).1 cs).2).filterMap
                (fun e => e.dt) =
                d :: ((runFeed (Feed.send_next s).1 cs).2.filterMap
                  (fun e => e.dt)) := by
              simp [List.filterMap_cons, hevdt]
            rw [hfm]
            cases m with
            | none => simpa using hihx
            | some x =>
                simp only [Option.toList_some, List.singleton_append] at hihx ⊢
                refine List.chain'_cons'.mpr ⟨?_, by simpa using hihx⟩
                intro y hy
                rw [List.head?_cons] at hy
                injection hy with hy'
                rw [← hy']
                exact hml x rfl

/-- C1, amended: for every run of the feed in which each source's buffered
and appended events all carry timestamps (no filler events) and arrive in
non-decreasing `dt` order per source, sources are only appended to before
they signal DONE, and drain mode starts only once every source is done,
the sequence of events emitted by `Feed.send_next` / `Feed.next` has
monotonically non-decreasing `dt`.  (With fillers interleaved the
guarantee fails, see the counterexample.) -/
theorem feed_emitted_dts_monotone (s : FeedState) (cmds : List FeedCmd)
    (hwf : feedWF s = true)
    (hleg : legalFrom (lastsOf s) (donesOf s) cmds = true) :
    ((runFeed s cmds).2.filterMap (fun e => e.dt)).Chain' (· ≤ ·) := by
  have h := runFeed_chain cmds s (lastsOf s) none (feedWF_inv s hwf) hleg
  simpa using h



/-- Counterexample to C1 as stated: with source 0 buffering a filler event
followed by an event at `dt = 5` and source 1 buffering an event at
`dt = 10` (both queues internally ordered by `dt`, fillers interleaved as
the claim allows), `Feed.next` pops the filler, skips source 0 for the
rest of that scan, emits `dt = 10` — and then emits `dt = 5`: the emitted
sequence decreases. -/
theorem feed_filler_reordering_counterexample :
    ((runFeed
      { buffers := [
          { queue := [{ source_id := 0, dt := none },
                      { source_id := 0, dt := some 5 }], done := false },
          { queue := [{ source_id := 1, dt := some 10 }], done := false }],
        draining := false, sent_count := 0, received_count := 0 }
      [FeedCmd.emit, FeedCmd.markDone 1, FeedCmd.emit]).2.map
        (fun e => e.dt)) = [some 10, some 5] ∧
    (({ buffers := [
          { queue := [{ source_id := 0, dt := none },
                      { source_id := 0, dt := some 5 }], done := false },
          { queue := [{ source_id := 1, dt := some 10 }], done := false }],
        draining := false, sent_count := 0,
        received_count := 0 } : FeedState).buffers.all
      (fun b => ascIntsB (queueDts b.queue)) = true) ∧
    ¬ ((10 : ℤ) ≤ 5) := by decide

/-- Witness for the amended C1: a concrete legal run with two sources,
a mid-run append, DONE signals and a drain emits `1, 2, 3, 4`. -/
theorem feed_emitted_dts_monotone_witness :
    ((runFeed
      { buffers := [
          { queue := [{ source_id := 0, dt := some 1 },
                      { source_id := 0, dt := some 3 }], done := false },
          { queue := [{ source_id := 1, dt := some 2 }], done := false }],
        draining := false, sent_count := 0, received_count := 0 }
      [FeedCmd.emit, FeedCmd.emit,
        FeedCmd.append { source_id := 1, dt := some 4 }, FeedCmd.emit,
        FeedCmd.markDone 0, FeedCmd.markDone 1, FeedCmd.startDrain,
        FeedCmd.emit, FeedCmd.emit]).2.filterMap
        (fun e => e.dt)).Chain' (· ≤ ·) := by
  exact feed_emitted_dts_monotone _ _ (by decide) (by decide)

end Zipline
